import Mathlib

/-
Verification development for the returns-analysis ingestion pipeline
(src/returns_analysis.py): schema-driven type coercion, row validation and
batch merge. The Python code is shallowly embedded below; pandas dataframes
are modelled column-major as association lists from column name to cell
list, pandas `NaN`/`NaT`/`NA` are the single absent marker, and the pandas
parsers (`pd.to_datetime`, `pd.to_numeric`) are modelled as executable
parsers over decimal / ISO-date literals with exact rational arithmetic.
Exceptions raised by the Python code are modelled with `Except`.
-/

set_option maxRecDepth 4000

/-- Cell values after coercion. `absent` models pandas `NaN`/`NaT`/`NA`
(the uniform absent marker); raw string cells are `str`. -/
inductive Value where
  | absent
  | str (s : String)
  | int (n : Int)
  | dec (q : Rat)
  | date (y m d : Nat)
deriving DecidableEq

/-- Target dtypes appearing in the script's `columns` dict:
`str`, `"Int64"`, `"datetime64[D]"`, `"float64"`. -/
inductive Dtype where
  | pyStr
  | int64
  | float64
  | datetime64D
deriving DecidableEq

/-- The `columns` schema dict of the script (insertion order preserved). -/
def columns : List (String × Dtype) :=
  [("Plant", .pyStr),
   ("Plant Code", .int64),
   ("Date Delivered", .datetime64D),
   ("Date Returned", .datetime64D),
   ("Customer", .pyStr),
   ("Customer Category", .pyStr),
   ("Product", .pyStr),
   ("Product Code", .pyStr),
   ("Total Delivered (kgs)", .float64),
   ("Total Returned (kgs)", .float64),
   ("Reason of Return", .pyStr),
   ("Return Category", .pyStr),
   ("Accountability", .pyStr),
   ("Validation", .pyStr),
   ("Remarks", .pyStr)]

/-- `required_columns = list(columns.keys())`. -/
def required_columns : List String := columns.map Prod.fst

/-- `allowed_validation_vals = {"Valid", "Invalid"}`. -/
def allowed_validation_vals : List String := ["Valid", "Invalid"]

/-- Whitespace test for the character-level strip. -/
def isWs (c : Char) : Bool := c = ' ' || c = '\t' || c = '\n' || c = '\r'

/-- Character-level strip of leading and trailing whitespace. -/
def trimChars (cs : List Char) : List Char :=
  ((cs.dropWhile isWs).reverse.dropWhile isWs).reverse

/-- Models Python `str.strip()` (kernel-computable). -/
def pyStrip (s : String) : String := String.mk (trimChars s.data)

/-- Splits a character list on a separator (kernel-computable `splitOn`). -/
def splitOnChar (sep : Char) : List Char → List (List Char)
  | [] => [[]]
  | c :: rest =>
      let r := splitOnChar sep rest
      if c = sep then [] :: r
      else (c :: r.headD []) :: r.tail

/-- Digit-run test used by the parser models. -/
def isDigits (cs : List Char) : Bool := !cs.isEmpty && cs.all Char.isDigit

/-- Numeric value of a digit run. -/
def digitsToNat (cs : List Char) : Nat :=
  cs.foldl (fun a c => a * 10 + (c.toNat - 48)) 0

/-- Models `pd.to_numeric` on one raw string: parses an optionally signed
decimal literal (`12`, `-3.7`, `+.5`, `2.`) to an exact rational, `none` on
failure (which pandas turns into `NaN` under `errors="coerce"`). -/
def parseNum (s : String) : Option Rat :=
  let t := trimChars s.data
  let sgn : Int := if t.headD ' ' = '-' then -1 else 1
  let body := if t.headD ' ' = '-' || t.headD ' ' = '+' then t.tail else t
  match splitOnChar '.' body with
  | [w] =>
      if isDigits w then some (mkRat (sgn * (digitsToNat w : Int)) 1)
      else none
  | [w, f] =>
      if (w.length + f.length != 0) && w.all Char.isDigit && f.all Char.isDigit then
        some (mkRat (sgn * ((digitsToNat w * 10 ^ f.length + digitsToNat f : Nat) : Int))
          (10 ^ f.length))
      else none
  | _ => none

/-- Models `pd.to_datetime(..., errors="coerce").dt.date` on one raw string:
parses an ISO `YYYY-MM-DD` literal to a calendar date, `none` on failure
(which pandas turns into `NaT`). -/
def parseDate (s : String) : Option (Nat × Nat × Nat) :=
  match splitOnChar '-' (trimChars s.data) with
  | [y, m, d] =>
      if isDigits y && isDigits m && isDigits d then
        let mn := digitsToNat m
        let dn := digitsToNat d
        if 1 ≤ mn && mn ≤ 12 && 1 ≤ dn && dn ≤ 31 then
          some (digitsToNat y, mn, dn)
        else none
      else none
  | _ => none

/-- Raw cell as read with `dtype=str`: a string or absent. -/
abbrev RawCell := Option String

/-- Raw table (`safe_read` output): column name to column of raw cells. -/
abbrev RawTable := List (String × List RawCell)

/-- Typed table: column name to column of coerced cells. -/
abbrev CoTable := List (String × List Value)

/-- Column-name list of a table (`df.columns`). -/
def colNames {α : Type} (t : List (String × α)) : List String := t.map Prod.fst

/-- First binding of a column name (`df[col]` lookup). -/
def lookupCol {α : Type} (c : String) : List (String × α) → Option α
  | [] => none
  | p :: t => if p.1 = c then some p.2 else lookupCol c t

/-- Row count of a dataframe (length of its first column; `len(df)`). -/
def height {α : Type} : List (String × List α) → Nat
  | [] => 0
  | p :: _ => p.2.length

/-- Rectangularity: every column has the common row count. -/
def Rect {α : Type} (t : List (String × List α)) : Prop :=
  ∀ p ∈ t, p.2.length = height t

/-- Overwrites every binding of column `c` with `cells`. -/
def setCol : CoTable → String → List Value → CoTable
  | [], _, _ => []
  | p :: t, c, cells => (if p.1 = c then (c, cells) else p) :: setCol t c cells

/-- Models pandas column assignment `df[c] = cells`: replaces the column
in place when present, otherwise appends it at the end. -/
def assignCol (t : CoTable) (c : String) (cells : List Value) : CoTable :=
  if (lookupCol c t).isSome then setCol t c cells else t ++ [(c, cells)]

/-- View of a raw cell in the unified cell domain. -/
def cellOfRaw : RawCell → Value
  | none => .absent
  | some s => .str s

/-- View of a raw table in the unified cell domain (`df.copy()` of the
all-string frame). -/
def tableOfRaw (df : RawTable) : CoTable :=
  df.map (fun p => (p.1, p.2.map cellOfRaw))

/-- `pd.notna` on a cell. -/
def notna : Value → Bool
  | .absent => false
  | _ => true

/-- One coercion issue tuple of `coerce_types`: 3-tuple
`("missing_column", col, None)` or 4-tuple `(kind, col, idx, val)`. -/
inductive Issue where
  | missing_column (col : String)
  | cell (kind : String) (col : String) (idx : Nat) (val : String)
deriving DecidableEq

/-- Models `coerced.isna() & series.notna()` followed by
`zip(series.index[bad_mask], series[bad_mask])`: index/raw-value pairs of
cells that were present but failed to parse, in index order. -/
def bads (orig parsed : List Value) : List (Nat × String) :=
  (orig.zip parsed).enum.filterMap (fun q =>
    match q.2.1, q.2.2 with
    | .str s, .absent => some (q.1, s)
    | _, _ => none)

/-- Per-cell `pd.to_datetime(...).dt.date` result. -/
def dateCellParse (v : Value) : Value :=
  match v with
  | .str s =>
      match parseDate s with
      | some t => .date t.1 t.2.1 t.2.2
      | none => .absent
  | _ => .absent

/-- Per-cell `pd.to_numeric(..., errors="coerce")` result. -/
def numCellParse (v : Value) : Value :=
  match v with
  | .str s =>
      match parseNum s with
      | some q => .dec q
      | none => .absent
  | _ => .absent

/-- Whether `astype("Int64")` accepts this `to_numeric` output cell:
absent casts to `<NA>`, a numeric casts safely iff it is integral. -/
def intCastOk : Value → Bool
  | .dec q => q.den = 1
  | _ => true

/-- Cell result of `astype("Int64")` on a safely-castable cell. -/
def toInt64 : Value → Value
  | .dec q => .int q.num
  | _ => .absent

/-- Cell result of `series.astype("string")` on a raw string column. -/
def strCast : Value → Value
  | .str s => .str s
  | _ => .absent

/-- Body of one iteration of the `for col, dtype in columns.items()` loop of
`coerce_types`: handles the missing-column case, else coerces the column
per dtype; the `Int64` branch models the `astype("Int64")` raise on
non-integral numerics. -/
def coerceStep (df2 : CoTable) (col : String) (dtype : Dtype) :
    Except String (CoTable × List Issue) :=
  match lookupCol col df2 with
  | none =>
      .ok (df2 ++ [(col, List.replicate (height df2) .absent)],
           [.missing_column col])
  | some series =>
      match dtype with
      | .datetime64D =>
          let coerced := series.map dateCellParse
          .ok (assignCol df2 col coerced,
               (bads series coerced).map (fun p => .cell "bad_datetime" col p.1 p.2))
      | .float64 =>
          let coerced := series.map numCellParse
          .ok (assignCol df2 col coerced,
               (bads series coerced).map (fun p => .cell "bad_float" col p.1 p.2))
      | .int64 =>
          let coerced := series.map numCellParse
          let issues := (bads series coerced).map (fun p => .cell "bad_int" col p.1 p.2)
          if coerced.all intCastOk then
            .ok (assignCol df2 col (coerced.map toInt64), issues)
          else
            .error "cannot safely cast non-equivalent float64 to int64"
      | .pyStr =>
          .ok (assignCol df2 col (series.map strCast), [])

/-- The schema loop of `coerce_types`, accumulating issues in order. -/
def coerceFold (entries : List (String × Dtype)) (df2 : CoTable) :
    Except String (CoTable × List Issue) :=
  match entries with
  | [] => .ok (df2, [])
  | e :: rest =>
      match coerceStep df2 e.1 e.2 with
      | .error err => .error err
      | .ok r1 =>
          match coerceFold rest r1.1 with
          | .error err => .error err
          | .ok r2 => .ok (r2.1, r1.2 ++ r2.2)

/-- Embeds `coerce_types(df)`: copies the raw frame and coerces every schema
column; returns the coerced frame and the issue list, or the propagated
`astype` exception. -/
def coerce_types (df : RawTable) : Except String (CoTable × List Issue) :=
  coerceFold columns (tableOfRaw df)

/-- One row of the error ledger: the dict with keys Plant, row, column,
issue, value and file built by `validate_row_level` and `main`. -/
structure ErrRow where
  plant : Value
  row : Option Nat
  column : Option String
  issue : String
  value : Value
  file : String
deriving DecidableEq

/-- Models Python `str(v)` as used by `validate_row_level`; there it is only
ever applied (under `pd.notna` short-circuiting) to cells of string-typed
columns, i.e. to the `str` constructor. -/
def valueStr : Value → String
  | .absent => "<NA>"
  | .str s => s
  | .int n => toString n
  | .dec _ => "<float>"
  | .date y m d => toString y ++ "-" ++ toString m ++ "-" ++ toString d

/-- Cell of row `i` in column `col` (`row[col]` / `row.get(col, None)` on an
`iterrows` row; absent when the column is missing). -/
def rowGet (df : CoTable) (i : Nat) (col : String) : Value :=
  match lookupCol col df with
  | some cells => cells.getD i .absent
  | none => .absent

/-- Issues `validate_row_level` emits for the row at index `i`: the
required-column loop, then the "Validation" enum check, then the
"Reason of Return" blank check, exactly as in the source. -/
def validateRow (df : CoTable) (source_file : String) (i : Nat) : List ErrRow :=
  (required_columns.map (fun col =>
    if (lookupCol col df).isSome then
      (if rowGet df i col = .absent ∧ col ≠ "Remarks" then
        [ErrRow.mk (rowGet df i "Plant") (some (i + 2)) (some col)
          "missing_value" .absent source_file]
      else [])
    else
      [ErrRow.mk .absent (some (i + 2)) (some col)
        "column_missing" .absent source_file])).flatten
  ++ (if (lookupCol "Validation" df).isSome then
        (if rowGet df i "Validation" ≠ .absent
            ∧ pyStrip (valueStr (rowGet df i "Validation")) ∉ allowed_validation_vals then
          [ErrRow.mk (rowGet df i "Plant") (some (i + 2)) (some "Validation")
            "invalid_value" (rowGet df i "Validation") source_file]
        else [])
      else [])
  ++ (if (lookupCol "Reason of Return" df).isSome then
        (if rowGet df i "Reason of Return" = .absent
            ∨ pyStrip (valueStr (rowGet df i "Reason of Return")) = "" then
          [ErrRow.mk (rowGet df i "Plant") (some (i + 2)) (some "Reason of Return")
            "missing_reason" (rowGet df i "Reason of Return") source_file]
        else [])
      else [])

/-- Embeds `validate_row_level(df, source_file)`: the per-row issues over
all rows of the frame, in row order. -/
def validate_row_level (df : CoTable) (source_file : String) : List ErrRow :=
  ((List.range (height df)).map (validateRow df source_file)).flatten

/-- Models `os.path.basename`. -/
def basename (p : String) : String :=
  String.mk ((splitOnChar '/' p.data).getLastD p.data)

/-- Models `df_raw.columns = [str(c).strip() for c in df_raw.columns]`. -/
def stripCols (df : RawTable) : RawTable :=
  df.map (fun p => (pyStrip p.1, p.2))

/-- Translation of one `coerce_types` issue tuple into an error-ledger row,
as in the `for it in type_issues` loop of `main` (including the Plant
enrichment for cell-level issues). -/
def issueToErrRow (coerced : CoTable) (f : String) (it : Issue) : ErrRow :=
  match it with
  | .missing_column col =>
      ErrRow.mk .absent none (some col) "missing_column" .absent f
  | .cell kind col idx val =>
      let plant :=
        if (lookupCol col coerced).isSome ∧ idx < height coerced then
          (if (lookupCol "Plant" coerced).isSome then rowGet coerced idx "Plant"
           else .absent)
        else .absent
      ErrRow.mk plant (some (idx + 2)) (some col) kind (.str val) f

/-- One batch input: a file path together with the `safe_read` outcome at the
Reader boundary (the frame read with `dtype=str`, or the caught exception
message). -/
abbrev Src := String × Except String RawTable

/-- The read-error ledger row `main` appends for an unreadable source. -/
def readErrRow (f e : String) : ErrRow :=
  ErrRow.mk .absent none none "read_error" (.str e) f

/-- Frame and ledger-row contributions of one source in the `for f in files`
loop of `main`: a read failure contributes no frame and one `read_error`
row; a readable source contributes its coerced tagged frame, the translated
coercion issues and the row-validation issues. -/
def processSource (f : String) (res : Except String RawTable) :
    Except String (List CoTable × List ErrRow) :=
  match res with
  | .error e => .ok ([], [readErrRow f e])
  | .ok dfRaw =>
      match coerce_types (stripCols dfRaw) with
      | .error err => .error err
      | .ok r =>
          .ok ([assignCol r.1 "__source_file"
                 (List.replicate (height r.1) (.str (basename f)))],
               r.2.map (issueToErrRow r.1 f) ++ validate_row_level r.1 f)

/-- The whole source loop of `main`: frames and ledger rows accumulated in
source order; a coercion exception propagates and aborts the batch. -/
def runBatch : List Src → Except String (List CoTable × List ErrRow)
  | [] => .ok ([], [])
  | s :: rest =>
      match processSource s.1 s.2 with
      | .error err => .error err
      | .ok r1 =>
          match runBatch rest with
          | .error err => .error err
          | .ok r2 => .ok (r1.1 ++ r2.1, r1.2 ++ r2.2)

/-- Result columns of `pd.concat(frames, sort=False)`: order of first
appearance across the frames. -/
def unionCols (ts : List CoTable) : List String :=
  ts.foldl (fun acc t =>
    acc ++ (colNames t).filter (fun c => !acc.contains c)) []

/-- Models `pd.concat(frames, ignore_index=True, sort=False)`: every column
that appears in some frame, its cells the concatenation over the frames of
that frame's cells, or absent filler where the frame lacks the column. -/
def concatTables (ts : List CoTable) : CoTable :=
  (unionCols ts).map (fun c =>
    (c, (ts.map (fun t =>
      match lookupCol c t with
      | some cells => cells
      | none => List.replicate (height t) Value.absent)).flatten))

/-- Models
`pd.concat(all_frames, ...) if all_frames else pd.DataFrame(columns=required_columns)`. -/
def buildMaster (frames : List CoTable) : CoTable :=
  match frames with
  | [] => required_columns.map (fun c => (c, []))
  | _ => concatTables frames

/-- The ingestion pipeline of `main` after file discovery: process every
source, then build the master dataset; the error ledger is the accumulated
row list. -/
def ingest (sources : List Src) : Except String (CoTable × List ErrRow) :=
  match runBatch sources with
  | .error err => .error err
  | .ok r => .ok (buildMaster r.1, r.2)

/-- Embeds `main` from file discovery onward: with an empty batch, `main`
prints a message and returns before producing any artifact (modelled as
`none`); otherwise the artifacts are the `ingest` results. -/
def main_run (sources : List Src) : Option (Except String (CoTable × List ErrRow)) :=
  if sources.isEmpty then none else some (ingest sources)

/-- Heap of dataframe objects, for the aliasing/mutation model of
`coerce_types`: Python names hold references (indices) into the heap, and
pandas column assignment mutates the referenced frame in place. -/
abbrev Heap := List CoTable

/-- The schema loop of `coerce_types` in the heap model: each
`df2[col] = ...` step is an in-place update of the frame at reference `r`. -/
def coerceFoldHeap : List (String × Dtype) → Heap → Nat →
    Except String (Heap × List Issue)
  | [], h, _ => .ok (h, [])
  | e :: rest, h, r =>
      match coerceStep (h.getD r []) e.1 e.2 with
      | .error err => .error err
      | .ok r1 =>
          match coerceFoldHeap rest (h.set r r1.1) r with
          | .error err => .error err
          | .ok r2 => .ok (r2.1, r1.2 ++ r2.2)

/-- Embeds `coerce_types` in the heap model: `df2 = df.copy()` allocates a
fresh frame (appended at index `h.length`), and the schema loop mutates only
that fresh frame; returns the updated heap, the reference to the coerced
frame, and the issues. -/
def coerce_types_heap (h : Heap) (r : Nat) :
    Except String (Heap × Nat × List Issue) :=
  match coerceFoldHeap columns (h ++ [h.getD r []]) h.length with
  | .error err => .error err
  | .ok res => .ok (res.1, h.length, res.2)

/-- Row counts and provenance basenames of the successfully-read sources of
a batch, in batch order. -/
def loadedMeta (sources : List Src) : List (Nat × String) :=
  sources.filterMap (fun s =>
    match s.2 with
    | .ok df => some (height df, basename s.1)
    | .error _ => none)

/-- Row counts of the successfully-read sources of a batch, in batch order. -/
def loadedRowCounts (sources : List Src) : List Nat :=
  (loadedMeta sources).map Prod.fst

def okT (e : Except String (CoTable × List Issue)) : CoTable :=
  match e with
  | .ok p => p.1
  | .error _ => []

def okIs (e : Except String (CoTable × List Issue)) : List Issue :=
  match e with
  | .ok p => p.2
  | .error _ => []

def okM (e : Except String (CoTable × List ErrRow)) : CoTable :=
  match e with
  | .ok p => p.1
  | .error _ => []

def okL (e : Except String (CoTable × List ErrRow)) : List ErrRow :=
  match e with
  | .ok p => p.2
  | .error _ => []

def okHeap (e : Except String (Heap × Nat × List Issue)) : Heap :=
  match e with
  | .ok p => p.1
  | .error _ => []

def okRef (e : Except String (Heap × Nat × List Issue)) : Nat :=
  match e with
  | .ok p => p.2.1
  | .error _ => 0

def okHIs (e : Except String (Heap × Nat × List Issue)) : List Issue :=
  match e with
  | .ok p => p.2.2
  | .error _ => []

def raw8 : RawTable :=
  [("Plant", [some "Plant1"]),
   ("Plant Code", [some "1"]),
   ("Date Delivered", [some "2024-01-02"]),
   ("Date Returned", [some "2024-01-03"]),
   ("Customer", [some "c"]),
   ("Customer Category", [some "Hotels"]),
   ("Product", [some "p"]),
   ("Product Code", [some "pc"]),
   ("Total Delivered (kgs)", [some "1.5"]),
   ("Total Returned (kgs)", [some "0.5"]),
   ("Reason of Return", [some "  "]),
   ("Return Category", [some "Damaged"]),
   ("Accountability", [some "Sales"]),
   ("Validation", [some "Valid"]),
   ("Remarks", [some "r"])]

def batch2 : List Src :=
  [("a.csv", Except.ok raw8), ("bad.csv", Except.error "x")]

theorem lookupCol_isSome_iff {α : Type} (c : String) (t : List (String × α)) :
    (lookupCol c t).isSome ↔ c ∈ colNames t := by
  induction t with
  | nil => simp [lookupCol, colNames]
  | cons p rest ih =>
      by_cases h : p.1 = c
      · simp [lookupCol, colNames, h]
      · simp only [lookupCol, colNames, List.map_cons, List.mem_cons, if_neg h]
        rw [ih]
        simp [colNames]
        intro hc
        exact absurd hc.symm h

theorem lookupCol_mem {α : Type} {c : String} {t : List (String × α)} {v : α}
    (h : lookupCol c t = some v) : (c, v) ∈ t := by
  induction t with
  | nil => simp [lookupCol] at h
  | cons p rest ih =>
      by_cases hp : p.1 = c
      · rw [lookupCol, if_pos hp] at h
        injection h with hv
        subst hv
        cases p with
        | mk a b =>
            cases hp
            exact List.mem_cons_self _ _
      · rw [lookupCol, if_neg hp] at h
        exact List.mem_cons_of_mem _ (ih h)

theorem lookupCol_append {α : Type} (c : String) (t1 t2 : List (String × α)) :
    lookupCol c (t1 ++ t2) =
      match lookupCol c t1 with
      | some v => some v
      | none => lookupCol c t2 := by
  induction t1 with
  | nil => simp [lookupCol]
  | cons p rest ih =>
      by_cases h : p.1 = c
      · simp [lookupCol, h]
      · simp [lookupCol, h, ih]

theorem lookupCol_setCol_self (t : CoTable) (c : String) (cells : List Value) :
    lookupCol c (setCol t c cells) =
      if (lookupCol c t).isSome then some cells else none := by
  induction t with
  | nil => simp [setCol, lookupCol]
  | cons p rest ih =>
      by_cases h : p.1 = c
      · rw [setCol, if_pos h, lookupCol, if_pos rfl]
        rw [lookupCol, if_pos h]
        simp
      · rw [setCol, if_neg h, lookupCol, if_neg h]
        rw [lookupCol, if_neg h]
        exact ih

theorem lookupCol_setCol_ne (t : CoTable) {c c' : String} (cells : List Value)
    (h : c' ≠ c) :
    lookupCol c' (setCol t c cells) = lookupCol c' t := by
  induction t with
  | nil => simp [setCol, lookupCol]
  | cons p rest ih =>
      by_cases hp : p.1 = c
      · rw [setCol, if_pos hp]
        rw [lookupCol, if_neg (fun hc => h hc.symm)]
        rw [lookupCol, hp, if_neg (fun hc => h hc.symm)]
        exact ih
      · rw [setCol, if_neg hp]
        rw [lookupCol, lookupCol]
        by_cases hq : p.1 = c'
        · simp [hq]
        · rw [if_neg hq, if_neg hq]
          exact ih

theorem lookupCol_assignCol_self (t : CoTable) (c : String) (cells : List Value) :
    lookupCol c (assignCol t c cells) = some cells := by
  rw [assignCol]
  by_cases h : (lookupCol c t).isSome
  · rw [if_pos h, lookupCol_setCol_self, if_pos h]
  · rw [if_neg h, lookupCol_append]
    rw [Option.not_isSome_iff_eq_none] at h
    rw [h]
    simp [lookupCol]

theorem lookupCol_assignCol_ne (t : CoTable) {c c' : String} (cells : List Value)
    (h : c' ≠ c) :
    lookupCol c' (assignCol t c cells) = lookupCol c' t := by
  rw [assignCol]
  by_cases hs : (lookupCol c t).isSome
  · rw [if_pos hs, lookupCol_setCol_ne _ _ h]
  · rw [if_neg hs, lookupCol_append]
    cases hq : lookupCol c' t with
    | some v => rfl
    | none =>
        show lookupCol c' [(c, cells)] = none
        rw [lookupCol, if_neg (fun hc => h hc.symm)]
        rfl

theorem colNames_setCol (t : CoTable) (c : String) (cells : List Value) :
    colNames (setCol t c cells) = colNames t := by
  induction t with
  | nil => rfl
  | cons p rest ih =>
      by_cases h : p.1 = c
      · rw [setCol, if_pos h]
        show c :: colNames (setCol rest c cells) = p.1 :: colNames rest
        rw [ih, h]
      · rw [setCol, if_neg h]
        show p.1 :: colNames (setCol rest c cells) = p.1 :: colNames rest
        rw [ih]

theorem colNames_append {α : Type} (t1 t2 : List (String × α)) :
    colNames (t1 ++ t2) = colNames t1 ++ colNames t2 := by
  simp [colNames]

theorem colNames_assignCol_present (t : CoTable) (c : String) (cells : List Value)
    (h : (lookupCol c t).isSome) :
    colNames (assignCol t c cells) = colNames t := by
  rw [assignCol, if_pos h, colNames_setCol]

theorem colNames_assignCol_absent (t : CoTable) (c : String) (cells : List Value)
    (h : lookupCol c t = none) :
    colNames (assignCol t c cells) = colNames t ++ [c] := by
  rw [assignCol, if_neg (by simp [h]), colNames_append]
  rfl

theorem height_setCol (t : CoTable) {c : String} {series cells : List Value}
    (hs : lookupCol c t = some series) (hl : cells.length = series.length) :
    height (setCol t c cells) = height t := by
  cases t with
  | nil => rfl
  | cons p rest =>
      by_cases h : p.1 = c
      · rw [lookupCol, if_pos h] at hs
        injection hs with hs
        rw [setCol, if_pos h]
        show cells.length = p.2.length
        rw [hl, hs]
      · rw [setCol, if_neg h]
        rfl

theorem height_assignCol_of_lookup (t : CoTable) {c : String}
    {series cells : List Value}
    (hs : lookupCol c t = some series) (hl : cells.length = series.length) :
    height (assignCol t c cells) = height t := by
  rw [assignCol, if_pos (by simp [hs]), height_setCol t hs hl]

theorem height_assignCol_of_len (t : CoTable) {c : String} {cells : List Value}
    (hl : cells.length = height t) :
    height (assignCol t c cells) = height t := by
  rw [assignCol]
  by_cases hs : (lookupCol c t).isSome
  · rw [if_pos hs]
    cases t with
    | nil => rfl
    | cons p rest =>
        by_cases h : p.1 = c
        · rw [setCol, if_pos h]
          exact hl
        · rw [setCol, if_neg h]
          rfl
  · rw [if_neg hs]
    cases t with
    | nil => exact hl
    | cons p rest => rfl

theorem height_append_single (t : CoTable) (c : String) (cells : List Value)
    (hl : cells.length = height t) :
    height (t ++ [(c, cells)]) = height t := by
  cases t with
  | nil => exact hl
  | cons p rest => rfl

theorem mem_setCol {t : CoTable} {c : String} {cells : List Value}
    {p : String × List Value} (hp : p ∈ setCol t c cells) :
    p ∈ t ∨ p = (c, cells) := by
  induction t with
  | nil => cases hp
  | cons q rest ih =>
      rw [setCol] at hp
      cases hp with
      | head =>
          by_cases h : q.1 = c
          · rw [if_pos h]
            right
            rfl
          · rw [if_neg h]
            left
            exact List.mem_cons_self _ _
      | tail _ hmem =>
          cases ih hmem with
          | inl hin => exact Or.inl (List.mem_cons_of_mem _ hin)
          | inr heq => exact Or.inr heq

theorem rect_assignCol (t : CoTable) (c : String) (cells : List Value)
    (hr : Rect t) (hl : cells.length = height t) :
    Rect (assignCol t c cells) := by
  intro p hp
  rw [height_assignCol_of_len t hl]
  rw [assignCol] at hp
  by_cases hs : (lookupCol c t).isSome
  · rw [if_pos hs] at hp
    cases mem_setCol hp with
    | inl hin => exact hr p hin
    | inr heq =>
        rw [heq]
        exact hl
  · rw [if_neg hs] at hp
    cases List.mem_append.mp hp with
    | inl hin => exact hr p hin
    | inr hone =>
        rw [List.mem_singleton.mp hone]
        exact hl

theorem height_coerceStep {t t' : CoTable} {col : String} {ty : Dtype}
    {is : List Issue} (h : coerceStep t col ty = .ok (t', is)) :
    height t' = height t := by
  unfold coerceStep at h
  split at h
  · rename_i hs
    injection h with hpair
    cases hpair
    exact height_append_single t col _ (List.length_replicate _ _)
  · rename_i series hs
    split at h
    · injection h with hpair
      cases hpair
      exact height_assignCol_of_lookup t hs (List.length_map _ _)
    · injection h with hpair
      cases hpair
      exact height_assignCol_of_lookup t hs (List.length_map _ _)
    · dsimp only at h
      split at h
      · injection h with hpair
        cases hpair
        exact height_assignCol_of_lookup t hs
          (by rw [List.length_map, List.length_map])
      · cases h
    · injection h with hpair
      cases hpair
      exact height_assignCol_of_lookup t hs (List.length_map _ _)

theorem rect_coerceStep {t t' : CoTable} {col : String} {ty : Dtype}
    {is : List Issue} (hr : Rect t) (h : coerceStep t col ty = .ok (t', is)) :
    Rect t' := by
  unfold coerceStep at h
  split at h
  · rename_i hs
    injection h with hpair
    cases hpair
    intro p hp
    rw [height_append_single t col _ (List.length_replicate _ _)]
    cases List.mem_append.mp hp with
    | inl hin => exact hr p hin
    | inr hone =>
        rw [List.mem_singleton.mp hone]
        exact List.length_replicate _ _
  · rename_i series hs
    have hser : series.length = height t := hr _ (lookupCol_mem hs)
    split at h
    · injection h with hpair
      cases hpair
      exact rect_assignCol t _ _ hr (by rw [List.length_map, hser])
    · injection h with hpair
      cases hpair
      exact rect_assignCol t _ _ hr (by rw [List.length_map, hser])
    · dsimp only at h
      split at h
      · injection h with hpair
        cases hpair
        exact rect_assignCol t _ _ hr
          (by rw [List.length_map, List.length_map, hser])
      · cases h
    · injection h with hpair
      cases hpair
      exact rect_assignCol t _ _ hr (by rw [List.length_map, hser])

theorem lookupCol_coerceStep_ne {t t' : CoTable} {col c : String} {ty : Dtype}
    {is : List Issue} (hne : col ≠ c) (h : coerceStep t col ty = .ok (t', is)) :
    lookupCol c t' = lookupCol c t := by
  unfold coerceStep at h
  split at h
  · rename_i hs
    injection h with hpair
    cases hpair
    rw [lookupCol_append]
    cases hq : lookupCol c t with
    | some v => rfl
    | none =>
        show lookupCol c [(col, _)] = none
        rw [lookupCol, if_neg hne]
        rfl
  · rename_i series hs
    split at h
    · injection h with hpair
      cases hpair
      exact lookupCol_assignCol_ne t _ (fun hc => hne hc.symm)
    · injection h with hpair
      cases hpair
      exact lookupCol_assignCol_ne t _ (fun hc => hne hc.symm)
    · dsimp only at h
      split at h
      · injection h with hpair
        cases hpair
        exact lookupCol_assignCol_ne t _ (fun hc => hne hc.symm)
      · cases h
    · injection h with hpair
      cases hpair
      exact lookupCol_assignCol_ne t _ (fun hc => hne hc.symm)

theorem coerceFold_height {entries : List (String × Dtype)} {t t' : CoTable}
    {is : List Issue} (h : coerceFold entries t = .ok (t', is)) :
    height t' = height t := by
  induction entries generalizing t t' is with
  | nil =>
      unfold coerceFold at h
      injection h with hpair
      cases hpair
      rfl
  | cons e rest ih =>
      unfold coerceFold at h
      split at h
      · cases h
      · rename_i r1 hstep
        obtain ⟨t1, is1⟩ := r1
        split at h
        · cases h
        · rename_i r2 hrest
          obtain ⟨t2, is2⟩ := r2
          injection h with hpair
          cases hpair
          exact (ih hrest).trans (height_coerceStep hstep)

theorem coerceFold_rect {entries : List (String × Dtype)} {t t' : CoTable}
    {is : List Issue} (hr : Rect t) (h : coerceFold entries t = .ok (t', is)) :
    Rect t' := by
  induction entries generalizing t t' is with
  | nil =>
      unfold coerceFold at h
      injection h with hpair
      cases hpair
      exact hr
  | cons e rest ih =>
      unfold coerceFold at h
      split at h
      · cases h
      · rename_i r1 hstep
        obtain ⟨t1, is1⟩ := r1
        split at h
        · cases h
        · rename_i r2 hrest
          obtain ⟨t2, is2⟩ := r2
          injection h with hpair
          cases hpair
          exact ih (rect_coerceStep hr hstep) hrest

theorem coerceFold_lookup_ne {entries : List (String × Dtype)} {t t' : CoTable}
    {c : String} {is : List Issue} (hne : ∀ e ∈ entries, e.1 ≠ c)
    (h : coerceFold entries t = .ok (t', is)) :
    lookupCol c t' = lookupCol c t := by
  induction entries generalizing t t' is with
  | nil =>
      unfold coerceFold at h
      injection h with hpair
      cases hpair
      rfl
  | cons e rest ih =>
      unfold coerceFold at h
      split at h
      · cases h
      · rename_i r1 hstep
        obtain ⟨t1, is1⟩ := r1
        split at h
        · cases h
        · rename_i r2 hrest
          obtain ⟨t2, is2⟩ := r2
          injection h with hpair
          cases hpair
          rw [ih (fun x hx => hne x (List.mem_cons_of_mem _ hx)) hrest]
          exact lookupCol_coerceStep_ne (hne e (List.mem_cons_self _ _)) hstep

theorem coerceFold_cons (e : String × Dtype) (rest : List (String × Dtype))
    (t : CoTable) :
    coerceFold (e :: rest) t =
      match coerceStep t e.1 e.2 with
      | .error err => .error err
      | .ok r1 =>
          match coerceFold rest r1.1 with
          | .error err => .error err
          | .ok r2 => .ok (r2.1, r1.2 ++ r2.2) := rfl

theorem coerceFold_append (xs ys : List (String × Dtype)) (t : CoTable) :
    coerceFold (xs ++ ys) t =
      match coerceFold xs t with
      | .error e => .error e
      | .ok r1 =>
          match coerceFold ys r1.1 with
          | .error e => .error e
          | .ok r2 => .ok (r2.1, r1.2 ++ r2.2) := by
  induction xs generalizing t with
  | nil =>
      rw [List.nil_append]
      have h0 : coerceFold [] t = .ok (t, ([] : List Issue)) := rfl
      rw [h0]
      dsimp only
      cases hys : coerceFold ys t with
      | error err => simp
      | ok r2 => simp
  | cons e rest ih =>
      rw [List.cons_append]
      rw [coerceFold_cons, coerceFold_cons]
      cases hstep : coerceStep t e.1 e.2 with
      | error err => simp
      | ok r1 =>
          dsimp only
          rw [ih r1.1]
          cases hrest : coerceFold rest r1.1 with
          | error err => simp
          | ok rA =>
              dsimp only
              cases hys : coerceFold ys rA.1 with
              | error err => simp
              | ok rB => simp [List.append_assoc]

theorem contains_eq_lookup_isSome {α : Type} (c : String)
    (t : List (String × α)) :
    (colNames t).contains c = (lookupCol c t).isSome := by
  by_cases h : (lookupCol c t).isSome
  · rw [h]
    exact List.elem_iff.mpr ((lookupCol_isSome_iff c t).mp h)
  · rw [Bool.eq_false_iff.mpr h]
    rw [Bool.eq_false_iff]
    intro hc
    exact h ((lookupCol_isSome_iff c t).mpr (List.elem_iff.mp hc))

theorem colNames_coerceStep {t t' : CoTable} {col : String} {ty : Dtype}
    {is : List Issue} (h : coerceStep t col ty = .ok (t', is)) :
    colNames t' =
      if (lookupCol col t).isSome then colNames t else colNames t ++ [col] := by
  unfold coerceStep at h
  split at h
  · rename_i hs
    injection h with hpair
    cases hpair
    rw [if_neg (by simp [hs]), colNames_append]
    rfl
  · rename_i series hs
    rw [if_pos (by simp [hs])]
    split at h
    · injection h with hpair
      cases hpair
      exact colNames_assignCol_present t _ _ (by simp [hs])
    · injection h with hpair
      cases hpair
      exact colNames_assignCol_present t _ _ (by simp [hs])
    · dsimp only at h
      split at h
      · injection h with hpair
        cases hpair
        exact colNames_assignCol_present t _ _ (by simp [hs])
      · cases h
    · injection h with hpair
      cases hpair
      exact colNames_assignCol_present t _ _ (by simp [hs])

theorem coerceFold_colNames {entries : List (String × Dtype)} {t t' : CoTable}
    {is : List Issue} (hnd : (entries.map Prod.fst).Nodup)
    (h : coerceFold entries t = .ok (t', is)) :
    colNames t' = colNames t ++
      (entries.map Prod.fst).filter (fun c => !(colNames t).contains c) := by
  induction entries generalizing t t' is with
  | nil =>
      unfold coerceFold at h
      injection h with hpair
      cases hpair
      simp
  | cons e rest ih =>
      rw [coerceFold_cons] at h
      split at h
      · cases h
      · rename_i r1 hstep
        obtain ⟨t1, is1⟩ := r1
        split at h
        · cases h
        · rename_i r2 hrest
          obtain ⟨t2, is2⟩ := r2
          injection h with hpair
          cases hpair
          rw [List.map_cons, List.nodup_cons] at hnd
          have hcn := colNames_coerceStep hstep
          have hrec := ih hnd.2 hrest
          rw [List.map_cons, List.filter_cons]
          by_cases hlk : (lookupCol e.1 t).isSome
          · rw [if_pos hlk] at hcn
            rw [hrec, hcn]
            have hcont : ((colNames t).contains e.1) = true := by
              rw [contains_eq_lookup_isSome, hlk]
            rw [hcont]
            simp
          · rw [if_neg hlk] at hcn
            have hcont : ((colNames t).contains e.1) = false := by
              rw [contains_eq_lookup_isSome]
              exact Bool.eq_false_iff.mpr hlk
            rw [hcont]
            rw [hrec, hcn]
            have hfeq : (List.map Prod.fst rest).filter
                  (fun c => !(colNames t ++ [e.1]).contains c) =
                (List.map Prod.fst rest).filter
                  (fun c => !(colNames t).contains c) := by
              apply List.filter_congr
              intro c hc
              have hnc : c ≠ e.1 := fun hceq => hnd.1 (hceq ▸ hc)
              have hcc : (colNames t ++ [e.1]).contains c = (colNames t).contains c := by
                cases hmem : (colNames t).contains c with
                | true =>
                    exact List.elem_iff.mpr
                      (List.mem_append_left _ (List.elem_iff.mp hmem))
                | false =>
                    rw [Bool.eq_false_iff]
                    intro habs
                    cases List.mem_append.mp (List.elem_iff.mp habs) with
                    | inl hin =>
                        exact absurd (List.elem_iff.mpr hin)
                          (Bool.eq_false_iff.mp hmem)
                    | inr hone => exact hnc (List.mem_singleton.mp hone)
              rw [hcc]
            rw [hfeq]
            simp

theorem colNames_tableOfRaw (df : RawTable) :
    colNames (tableOfRaw df) = colNames df := by
  simp [colNames, tableOfRaw]

theorem height_tableOfRaw (df : RawTable) :
    height (tableOfRaw df) = height df := by
  cases df with
  | nil => rfl
  | cons p rest => simp [tableOfRaw, height]

theorem lookupCol_tableOfRaw (c : String) (df : RawTable) :
    lookupCol c (tableOfRaw df) =
      (lookupCol c df).map (fun cells => cells.map cellOfRaw) := by
  induction df with
  | nil => rfl
  | cons p rest ih =>
      by_cases h : p.1 = c
      · show (if p.1 = c then some (p.2.map cellOfRaw) else _) = _
        rw [if_pos h, lookupCol, if_pos h]
        rfl
      · show (if p.1 = c then some (p.2.map cellOfRaw) else _) = _
        rw [if_neg h, lookupCol, if_neg h]
        exact ih

theorem rect_tableOfRaw {df : RawTable} (hr : Rect df) : Rect (tableOfRaw df) := by
  intro p hp
  rw [height_tableOfRaw]
  rw [tableOfRaw] at hp
  obtain ⟨q, hq, hpq⟩ := List.mem_map.mp hp
  rw [← hpq]
  simp only [List.length_map]
  exact hr q hq

theorem columns_names_nodup : (columns.map Prod.fst).Nodup := by decide

theorem coerce_types_colNames {df : RawTable} {t : CoTable} {is : List Issue}
    (h : coerce_types df = .ok (t, is)) :
    colNames t = colNames df ++
      required_columns.filter (fun c => !(colNames df).contains c) := by
  have hc := coerceFold_colNames columns_names_nodup h
  simp only [colNames_tableOfRaw] at hc
  exact hc

theorem coerce_types_height {df : RawTable} {t : CoTable} {is : List Issue}
    (h : coerce_types df = .ok (t, is)) :
    height t = height df := by
  rw [coerceFold_height h, height_tableOfRaw]

theorem coerce_types_rect {df : RawTable} {t : CoTable} {is : List Issue}
    (hr : Rect df) (h : coerce_types df = .ok (t, is)) :
    Rect t :=
  coerceFold_rect (rect_tableOfRaw hr) h

theorem coerce_types_required_isSome {df : RawTable} {t : CoTable}
    {is : List Issue} (h : coerce_types df = .ok (t, is)) :
    ∀ c ∈ required_columns, (lookupCol c t).isSome := by
  intro c hc
  apply (lookupCol_isSome_iff c t).mpr
  rw [coerce_types_colNames h]
  by_cases hin : c ∈ colNames df
  · exact List.mem_append_left _ hin
  · apply List.mem_append_right
    apply List.mem_filter.mpr
    constructor
    · exact hc
    · rw [Bool.not_eq_eq_eq_not]
      rw [Bool.not_true]
      rw [Bool.eq_false_iff]
      intro habs
      exact hin (List.elem_iff.mp habs)

theorem coerce_types_split {df : RawTable} {t : CoTable} {is : List Issue}
    {e : String × Dtype} (he : e ∈ columns)
    (h : coerce_types df = .ok (t, is)) :
    ∃ t1 t2 is2,
      lookupCol e.1 t1 = lookupCol e.1 (tableOfRaw df) ∧
      height t1 = height df ∧
      coerceStep t1 e.1 e.2 = .ok (t2, is2) ∧
      (∀ i ∈ is2, i ∈ is) ∧
      lookupCol e.1 t = lookupCol e.1 t2 := by
  obtain ⟨pre, suf, hsplit⟩ := List.append_of_mem he
  have hnd := columns_names_nodup
  rw [hsplit] at hnd
  rw [List.map_append, List.map_cons] at hnd
  have hdisj := (List.nodup_append.mp hnd).2.2
  have hnotpre : ∀ x ∈ pre, x.1 ≠ e.1 := by
    intro x hx habs
    exact hdisj (habs ▸ List.mem_map_of_mem Prod.fst hx) (List.mem_cons_self _ _)
  have hnotsuf : ∀ x ∈ suf, x.1 ≠ e.1 := by
    have hcons := (List.nodup_append.mp hnd).2.1
    intro x hx habs
    exact (List.nodup_cons.mp hcons).1 (habs ▸ List.mem_map_of_mem Prod.fst hx)
  rw [coerce_types, hsplit, coerceFold_append] at h
  split at h
  · cases h
  · rename_i r1 hpre
    obtain ⟨t1, is1⟩ := r1
    rw [coerceFold_cons] at h
    split at h
    · cases h
    · rename_i r2 hmid
      obtain ⟨t2, is2⟩ := r2
      injection h with hpair
      injection hpair with h1 h2
      dsimp only at h1 h2 hmid
      split at hmid
      · cases hmid
      · rename_i rS hstep
        obtain ⟨tS, isS⟩ := rS
        split at hmid
        · cases hmid
        · rename_i rF hsuf
          obtain ⟨tF, isF⟩ := rF
          injection hmid with hmpair
          injection hmpair with hm1 hm2
          dsimp only at hm1 hm2 hstep hsuf
          refine ⟨t1, tS, isS, ?_, ?_, hstep, ?_, ?_⟩
          · exact coerceFold_lookup_ne (fun x hx => hnotpre x hx) hpre
          · rw [coerceFold_height hpre, height_tableOfRaw]
          · intro i hi
            rw [← h2, ← hm2]
            apply List.mem_append_right
            exact List.mem_append_left _ hi
          · rw [← h1, ← hm1]
            exact coerceFold_lookup_ne (fun x hx => hnotsuf x hx) hsuf

/-- C1, counterexample: the coerced table's column set does not equal the
Schema Registry's column set — a raw column "Extra" outside the registry is
not dropped by `coerce_types` and also survives into the Master Dataset. -/
theorem C1_counterexample :
    colNames (okT (coerce_types [("Extra", [some "x"])])) =
      "Extra" :: required_columns ∧
    "Extra" ∉ required_columns ∧
    colNames (okM (ingest [("s.csv", Except.ok [("Extra", [some "x"])])])) =
      "Extra" :: (required_columns ++ ["__source_file"]) :=
  ⟨rfl, by decide, rfl⟩

/-- C1, amended: for every raw table on which coercion succeeds, the coerced
table's column list is the raw table's columns followed by the schema columns
missing from it; every schema column is present, and a schema column absent
from the raw table is filled with the absent marker for every row; extra raw
columns are retained (not dropped). -/
theorem C1_column_set (df : RawTable) (t : CoTable) (is : List Issue)
    (h : coerce_types df = .ok (t, is)) :
    colNames t = colNames df ++
      required_columns.filter (fun c => !(colNames df).contains c) ∧
    (∀ c ∈ required_columns, c ∈ colNames t) ∧
    (∀ c ∈ required_columns, (colNames df).contains c = false →
      lookupCol c t = some (List.replicate (height df) Value.absent)) := by
  refine ⟨coerce_types_colNames h, ?_, ?_⟩
  · intro c hc
    exact (lookupCol_isSome_iff c t).mp (coerce_types_required_isSome h c hc)
  · intro c hc hcf
    obtain ⟨e, he, hce⟩ := List.mem_map.mp hc
    subst hce
    obtain ⟨t1, t2, is2, hl1, hh1, hstep, hsub, hl2⟩ := coerce_types_split he h
    have hdfnone : lookupCol e.1 df = none := by
      cases hq : lookupCol e.1 df with
      | none => rfl
      | some v =>
          have hcq : (colNames df).contains e.1 = true := by
            rw [contains_eq_lookup_isSome, hq]
            rfl
          rw [hcq] at hcf
          cases hcf
    have hnone : lookupCol e.1 (tableOfRaw df) = none := by
      rw [lookupCol_tableOfRaw, hdfnone]
      rfl
    unfold coerceStep at hstep
    rw [hl1, hnone] at hstep
    injection hstep with hpair
    injection hpair with hp1 hp2
    rw [hl2, ← hp1, lookupCol_append, hl1, hnone]
    show lookupCol e.1 [(e.1, List.replicate (height t1) Value.absent)] = _
    rw [lookupCol, if_pos rfl, hh1]

/-- C1 witness: the amended theorem applied to the empty raw table. -/
theorem C1_column_set_witness :
    colNames (okT (coerce_types [])) = colNames ([] : RawTable) ++
      required_columns.filter (fun c => !(colNames ([] : RawTable)).contains c) ∧
    (∀ c ∈ required_columns, c ∈ colNames (okT (coerce_types []))) ∧
    (∀ c ∈ required_columns, (colNames ([] : RawTable)).contains c = false →
      lookupCol c (okT (coerce_types [])) =
        some (List.replicate (height ([] : RawTable)) Value.absent)) :=
  C1_column_set [] (okT (coerce_types [])) (okIs (coerce_types [])) rfl

/-- C2 (code bug): for the integer column "Plant Code" the present raw cell
"3.7" parses numerically but not as an integer, so per the claim the coerced
cell should be the absent marker with exactly one coercion Finding; instead
`coerce_types` propagates the `astype("Int64")` exception and produces no
coerced table and no Finding at all. -/
theorem C2_int_path_raises :
    coerce_types [("Plant Code", [some "3.7"])] =
      .error "cannot safely cast non-equivalent float64 to int64" ∧
    (∃ q : Rat, parseNum "3.7" = some q ∧ q.den ≠ 1) :=
  ⟨rfl, mkRat 37 10, rfl, by decide⟩

/-- C3 (code bug): an exception does escape the ingestion pipeline: a batch
containing a source whose "Plant Code" cell is "3.7" aborts with the
`astype("Int64")` error, producing neither a Master Dataset nor an Error
Ledger, and the remaining sources of the batch are never processed. -/
theorem C3_exception_escapes :
    ingest [("a.csv", Except.ok [("Plant Code", [some "3.7"])])] =
      .error "cannot safely cast non-equivalent float64 to int64" ∧
    ingest [("a.csv", Except.ok [("Plant Code", [some "3.7"])]),
            ("b.csv", Except.error "unreadable")] =
      .error "cannot safely cast non-equivalent float64 to int64" :=
  ⟨rfl, rfl⟩

theorem runBatch_cons (s : Src) (rest : List Src) :
    runBatch (s :: rest) =
      match processSource s.1 s.2 with
      | .error err => .error err
      | .ok r1 =>
          match runBatch rest with
          | .error err => .error err
          | .ok r2 => .ok (r1.1 ++ r2.1, r1.2 ++ r2.2) := rfl

theorem runBatch_append (xs ys : List Src) :
    runBatch (xs ++ ys) =
      match runBatch xs with
      | .error e => .error e
      | .ok r1 =>
          match runBatch ys with
          | .error e => .error e
          | .ok r2 => .ok (r1.1 ++ r2.1, r1.2 ++ r2.2) := by
  induction xs with
  | nil =>
      rw [List.nil_append]
      have h0 : runBatch [] = .ok (([] : List CoTable), ([] : List ErrRow)) := rfl
      rw [h0]
      dsimp only
      cases hys : runBatch ys with
      | error err => simp
      | ok r2 => simp
  | cons s rest ih =>
      rw [List.cons_append, runBatch_cons, runBatch_cons]
      cases hs : processSource s.1 s.2 with
      | error err => simp
      | ok r1 =>
          dsimp only
          rw [ih]
          cases hr : runBatch rest with
          | error err => simp
          | ok rA =>
              dsimp only
              cases hy : runBatch ys with
              | error err => simp
              | ok rB => simp [List.append_assoc]

/-- C5: a source failing at the Reader boundary contributes exactly one
`read_error` Finding with no row and no column, contributes zero rows (the
Master Dataset is unchanged), and the remaining sources are processed
exactly as if the bad source were absent. -/
theorem C5_read_error_isolated (pre post : List Src) (f e : String)
    (m : CoTable) (l : List ErrRow)
    (h : ingest (pre ++ (f, Except.error e) :: post) = .ok (m, l)) :
    ∃ l1 l2, ingest (pre ++ post) = .ok (m, l1 ++ l2) ∧
      l = l1 ++ readErrRow f e :: l2 ∧
      (readErrRow f e).issue = "read_error" ∧
      (readErrRow f e).row = none ∧
      (readErrRow f e).column = none := by
  unfold ingest at h
  rw [runBatch_append] at h
  split at h
  · cases h
  · rename_i r hrb
    obtain ⟨fs, es⟩ := r
    injection h with hpair
    injection hpair with h1 h2
    dsimp only at h1 h2
    split at hrb
    · cases hrb
    · rename_i r1 hpre
      obtain ⟨fs1, es1⟩ := r1
      rw [runBatch_cons] at hrb
      dsimp only at hrb
      rw [show processSource f (Except.error e) = .ok ([], [readErrRow f e])
        from rfl] at hrb
      dsimp only at hrb
      split at hrb
      · cases hrb
      · rename_i r2 hmid
        obtain ⟨fs2, es2⟩ := r2
        injection hrb with hrbpair
        injection hrbpair with hf he
        dsimp only at hf he
        split at hmid
        · cases hmid
        · rename_i r3 hpost
          obtain ⟨fs3, es3⟩ := r3
          injection hmid with hmidpair
          injection hmidpair with hf2 he2
          refine ⟨es1, es3, ?_, ?_, rfl, rfl, rfl⟩
          · unfold ingest
            rw [runBatch_append, hpre, hpost]
            dsimp only
            rw [← h1, ← hf, ← hf2]
            simp
          · rw [← h2, ← he, ← he2]
            simp

/-- C5 witness: the isolation theorem applied to a one-source batch whose
only source is unreadable. -/
theorem C5_read_error_isolated_witness :
    ∃ l1 l2,
      ingest ([] ++ []) =
        .ok (required_columns.map (fun c => (c, ([] : List Value))), l1 ++ l2) ∧
      [readErrRow "bad.csv" "boom"] =
        l1 ++ readErrRow "bad.csv" "boom" :: l2 ∧
      (readErrRow "bad.csv" "boom").issue = "read_error" ∧
      (readErrRow "bad.csv" "boom").row = none ∧
      (readErrRow "bad.csv" "boom").column = none :=
  C5_read_error_isolated [] [] "bad.csv" "boom"
    (required_columns.map (fun c => (c, ([] : List Value))))
    [readErrRow "bad.csv" "boom"] rfl

theorem runBatch_all_errors (sources : List Src)
    (h2 : ∀ s ∈ sources, ∃ e, s.2 = Except.error e) :
    ∃ l, runBatch sources = .ok ([], l) ∧ l.length = sources.length ∧
      ∀ r ∈ l, r.issue = "read_error" ∧ r.row = none ∧ r.column = none := by
  induction sources with
  | nil =>
      refine ⟨[], rfl, rfl, ?_⟩
      intro r hr
      cases hr
  | cons s rest ih =>
      obtain ⟨e, hse⟩ := h2 s (List.mem_cons_self _ _)
      obtain ⟨l, hl, hlen, hall⟩ := ih (fun x hx => h2 x (List.mem_cons_of_mem _ hx))
      refine ⟨readErrRow s.1 e :: l, ?_, ?_, ?_⟩
      · rw [runBatch_cons, hse]
        rw [show processSource s.1 (Except.error e) =
          .ok ([], [readErrRow s.1 e]) from rfl]
        dsimp only
        rw [hl]
        rfl
      · simp [hlen]
      · intro r hr
        cases hr with
        | head => exact ⟨rfl, rfl, rfl⟩
        | tail _ hmem => exact hall r hmem

/-- C6, counterexample: with an empty batch, `main` returns at the
`if not files` guard before building or writing anything, so no Master
Dataset and no Error Ledger are produced — contradicting the claim that the
output artifacts are still produced. -/
theorem C6_counterexample : main_run [] = none := rfl

/-- C6, amended: an empty batch makes the run exit early with no artifacts;
the empty Master Dataset carrying the full Schema Registry column set (plus
an all-`read_error` ledger) arises only for a nonempty batch in which every
source fails to read. -/
theorem C6_empty_batch_behavior (sources : List Src) (h1 : sources ≠ [])
    (h2 : ∀ s ∈ sources, ∃ e, s.2 = Except.error e) :
    ∃ l, main_run sources =
        some (.ok (required_columns.map (fun c => (c, ([] : List Value))), l)) ∧
      l.length = sources.length ∧
      ∀ r ∈ l, r.issue = "read_error" := by
  obtain ⟨l, hl, hlen, hall⟩ := runBatch_all_errors sources h2
  refine ⟨l, ?_, hlen, fun r hr => (hall r hr).1⟩
  rw [main_run, if_neg (by simpa using h1)]
  unfold ingest
  rw [hl]
  rfl

/-- C6 witness: a one-source batch whose only source is unreadable. -/
theorem C6_empty_batch_behavior_witness :
    ∃ l, main_run [("x.csv", Except.error "e")] =
        some (.ok (required_columns.map (fun c => (c, ([] : List Value))), l)) ∧
      l.length = [("x.csv", (Except.error "e" : Except String RawTable))].length ∧
      ∀ r ∈ l, r.issue = "read_error" :=
  C6_empty_batch_behavior [("x.csv", Except.error "e")]
    (List.cons_ne_nil _ _)
    (by
      intro s hs
      cases hs with
      | head => exact ⟨"e", rfl⟩
      | tail _ hmem => cases hmem)

theorem validateRow_cases {df : CoTable} {f : String} {i : Nat} {r : ErrRow}
    (hr : r ∈ validateRow df f i) :
    r.row = some (i + 2) ∧
    (r.issue = "column_missing" → ∃ c ∈ required_columns, lookupCol c df = none) ∧
    (r.issue = "missing_value" →
      ∃ c, r.column = some c ∧ rowGet df i c = Value.absent) := by
  rw [validateRow] at hr
  rcases List.mem_append.mp hr with hAB | hC
  · rcases List.mem_append.mp hAB with hA | hB
    · obtain ⟨li, hli, hrli⟩ := List.mem_flatten.mp hA
      obtain ⟨c, hc, hceq⟩ := List.mem_map.mp hli
      subst hceq
      by_cases hs : (lookupCol c df).isSome
      · rw [if_pos hs] at hrli
        split at hrli
        · rename_i hcond
          rw [List.mem_singleton.mp hrli]
          refine ⟨rfl, ?_, ?_⟩
          · intro habs
            exact absurd habs
              (show ¬("missing_value" : String) = "column_missing" by decide)
          · intro _
            exact ⟨c, rfl, hcond.1⟩
        · cases hrli
      · rw [if_neg hs] at hrli
        rw [List.mem_singleton.mp hrli]
        refine ⟨rfl, ?_, ?_⟩
        · intro _
          exact ⟨c, hc, Option.not_isSome_iff_eq_none.mp hs⟩
        · intro habs
          exact absurd habs
            (show ¬("column_missing" : String) = "missing_value" by decide)
    · split at hB
      · split at hB
        · rw [List.mem_singleton.mp hB]
          refine ⟨rfl, ?_, ?_⟩
          · intro habs
            exact absurd habs
              (show ¬("invalid_value" : String) = "column_missing" by decide)
          · intro habs
            exact absurd habs
              (show ¬("invalid_value" : String) = "missing_value" by decide)
        · cases hB
      · cases hB
  · split at hC
    · split at hC
      · rw [List.mem_singleton.mp hC]
        refine ⟨rfl, ?_, ?_⟩
        · intro habs
          exact absurd habs
            (show ¬("missing_reason" : String) = "column_missing" by decide)
        · intro habs
          exact absurd habs
            (show ¬("missing_reason" : String) = "missing_value" by decide)
      · cases hC
    · cases hC

/-- C9: when `validate_row_level` runs on a table produced by a successful
`coerce_types`, its `column_missing` branch is unreachable: every required
column is present in the coerced table, so no finding of kind
`column_missing` is ever emitted. -/
theorem C9_no_column_missing (df : RawTable) (t : CoTable) (is : List Issue)
    (f : String) (h : coerce_types df = .ok (t, is)) :
    ∀ r ∈ validate_row_level t f, r.issue ≠ "column_missing" := by
  intro r hr habs
  rw [validate_row_level] at hr
  obtain ⟨li, hli, hrli⟩ := List.mem_flatten.mp hr
  obtain ⟨i, hi, hieq⟩ := List.mem_map.mp hli
  subst hieq
  obtain ⟨c, hc, hnone⟩ := (validateRow_cases hrli).2.1 habs
  have hsome := coerce_types_required_isSome h c hc
  rw [hnone] at hsome
  exact absurd hsome (by decide)

/-- C9 witness: a concrete one-column raw table; every finding produced by
row validation on its coerced table has a kind other than `column_missing`. -/
theorem C9_no_column_missing_witness :
    (validate_row_level (okT (coerce_types [("Plant", [some "x"])])) "w.csv").all
      (fun r => decide (r.issue ≠ "column_missing")) = true :=
  List.all_eq_true.mpr (fun r hr => decide_eq_true
    (C9_no_column_missing [("Plant", [some "x"])]
      (okT (coerce_types [("Plant", [some "x"])]))
      (okIs (coerce_types [("Plant", [some "x"])])) "w.csv" rfl r hr))

theorem validateRow_subset {df : CoTable} {f : String} {i : Nat}
    (hi : i < height df) {r : ErrRow} (hr : r ∈ validateRow df f i) :
    r ∈ validate_row_level df f := by
  rw [validate_row_level]
  exact List.mem_flatten.mpr
    ⟨validateRow df f i, List.mem_map_of_mem _ (List.mem_range.mpr hi), hr⟩

/-- C8, counterexample: a fully-populated row whose "Reason of Return" is
the blank-but-present string "  " gets only a `missing_reason` finding —
no `missing_value` finding is emitted for that cell, because `pd.isna` is
false on a whitespace string. The claim that both checks fire for a cell
that is "absent or blank after trimming" is therefore false. -/
theorem C8_counterexample :
    validate_row_level (okT (coerce_types raw8)) "b.csv" =
      [ErrRow.mk (Value.str "Plant1") (some 2) (some "Reason of Return")
        "missing_reason" (Value.str "  ") "b.csv"] := rfl

/-- C8, amended: the two checks are independent, but they only both fire
when the "Reason of Return" cell is the absent marker; when the cell is a
present string that is blank after trimming, only `missing_reason` fires and
no `missing_value` finding exists for that row and column. -/
theorem C8_reason_checks (df : CoTable) (f : String) (i : Nat)
    (hcol : (lookupCol "Reason of Return" df).isSome)
    (hi : i < height df) :
    (rowGet df i "Reason of Return" = Value.absent →
      ErrRow.mk (rowGet df i "Plant") (some (i + 2)) (some "Reason of Return")
        "missing_value" Value.absent f ∈ validate_row_level df f ∧
      ErrRow.mk (rowGet df i "Plant") (some (i + 2)) (some "Reason of Return")
        "missing_reason" (rowGet df i "Reason of Return") f ∈
          validate_row_level df f) ∧
    (∀ s, rowGet df i "Reason of Return" = Value.str s → pyStrip s = "" →
      ErrRow.mk (rowGet df i "Plant") (some (i + 2)) (some "Reason of Return")
        "missing_reason" (rowGet df i "Reason of Return") f ∈
          validate_row_level df f ∧
      ∀ r ∈ validate_row_level df f,
        ¬(r.issue = "missing_value" ∧ r.column = some "Reason of Return" ∧
          r.row = some (i + 2))) := by
  constructor
  · intro habs
    constructor
    · apply validateRow_subset hi
      unfold validateRow
      apply List.mem_append.mpr
      apply Or.inl
      apply List.mem_append.mpr
      apply Or.inl
      apply List.mem_flatten.mpr
      refine ⟨_, List.mem_map_of_mem _
        (show "Reason of Return" ∈ required_columns by decide), ?_⟩
      rw [if_pos hcol]
      rw [if_pos ⟨habs, by decide⟩]
      exact List.mem_singleton_self _
    · apply validateRow_subset hi
      unfold validateRow
      apply List.mem_append.mpr
      apply Or.inr
      rw [if_pos hcol]
      rw [if_pos (Or.inl habs)]
      exact List.mem_singleton_self _
  · intro s hstr hblank
    constructor
    · apply validateRow_subset hi
      unfold validateRow
      apply List.mem_append.mpr
      apply Or.inr
      rw [if_pos hcol]
      rw [if_pos (Or.inr (by rw [hstr]; exact hblank))]
      exact List.mem_singleton_self _
    · intro r hr habs
      obtain ⟨hiss, hcolr, hrow⟩ := habs
      rw [validate_row_level] at hr
      obtain ⟨li, hli, hrli⟩ := List.mem_flatten.mp hr
      obtain ⟨j, hj, hjeq⟩ := List.mem_map.mp hli
      subst hjeq
      obtain ⟨hrrow, _, hmv⟩ := validateRow_cases hrli
      have hji : j = i := by
        rw [hrow] at hrrow
        injection hrrow with hr2
        omega
      subst hji
      obtain ⟨c, hcr, hcabs⟩ := hmv hiss
      rw [hcolr] at hcr
      injection hcr with hceq
      rw [← hceq, hstr] at hcabs
      cases hcabs

/-- C8 witness: the amended theorem applied to the coerced `raw8` table,
whose "Reason of Return" cell is the blank-but-present string "  ". -/
theorem C8_reason_checks_witness :
    ErrRow.mk (Value.str "Plant1") (some 2) (some "Reason of Return")
      "missing_reason" (Value.str "  ") "b.csv" ∈
        validate_row_level (okT (coerce_types raw8)) "b.csv" ∧
    ∀ r ∈ validate_row_level (okT (coerce_types raw8)) "b.csv",
      ¬(r.issue = "missing_value" ∧ r.column = some "Reason of Return" ∧
        r.row = some 2) :=
  (C8_reason_checks (okT (coerce_types raw8)) "b.csv" 0
    (by decide) (by decide)).2 "  " rfl rfl

theorem mem_bads {orig parsed : List Value} {i : Nat} {s : String}
    (ho : orig.get? i = some (.str s)) (hp : parsed.get? i = some .absent) :
    (i, s) ∈ bads orig parsed := by
  rw [bads]
  apply List.mem_filterMap.mpr
  refine ⟨(i, (.str s, .absent)), ?_, rfl⟩
  apply List.mk_mem_enum_iff_getElem?.mpr
  rw [List.get?_eq_getElem?] at ho hp
  exact List.getElem?_zip_eq_some.mpr ⟨ho, hp⟩

/-- C7, counterexample: the coercion Finding for an unparseable date cell
has kind `bad_datetime`, not the `bad_date` named by the claim and the §7
taxonomy. -/
theorem C7_counterexample :
    (okIs (coerce_types [("Date Delivered", [some "notadate"])])).filter
      (fun i => match i with | .cell .. => true | _ => false) =
      [Issue.cell "bad_datetime" "Date Delivered" 0 "notadate"] ∧
    "bad_datetime" ≠ "bad_date" :=
  ⟨rfl, by decide⟩

/-- C7, amended: for every cell of a date-typed column whose raw value is
present but cannot be parsed as a calendar date, the emitted coercion
Finding has kind `bad_datetime` and carries the offending raw value, the
coerced cell is the absent marker, and the row is not dropped (the coerced
table keeps the raw table's row count). -/
theorem C7_bad_datetime (df : RawTable) (t : CoTable) (is : List Issue)
    (col : String) (rc : List RawCell) (i : Nat) (s : String)
    (hcol : (col, Dtype.datetime64D) ∈ columns)
    (hlk : lookupCol col df = some rc)
    (hcell : rc.get? i = some (some s))
    (hparse : parseDate s = none)
    (h : coerce_types df = .ok (t, is)) :
    Issue.cell "bad_datetime" col i s ∈ is ∧
    (∃ cells, lookupCol col t = some cells ∧ cells.get? i = some Value.absent) ∧
    height t = height df := by
  obtain ⟨t1, t2, is2, hl1, hh1, hstep, hsub, hl2⟩ :=
    coerce_types_split (e := (col, Dtype.datetime64D)) hcol h
  have hser : lookupCol col t1 = some (rc.map cellOfRaw) := by
    rw [hl1, lookupCol_tableOfRaw, hlk]
    rfl
  have hsget : (rc.map cellOfRaw).get? i = some (Value.str s) := by
    rw [List.get?_eq_getElem?, List.getElem?_map]
    rw [List.get?_eq_getElem?] at hcell
    rw [hcell]
    rfl
  have hpget : ((rc.map cellOfRaw).map dateCellParse).get? i =
      some Value.absent := by
    rw [List.get?_eq_getElem?, List.getElem?_map]
    rw [List.get?_eq_getElem?] at hsget
    rw [hsget]
    show some (dateCellParse (Value.str s)) = some Value.absent
    rw [dateCellParse, hparse]
  unfold coerceStep at hstep
  rw [hser] at hstep
  injection hstep with hpair
  injection hpair with h1 h2
  refine ⟨?_, ?_, coerce_types_height h⟩
  · apply hsub
    rw [← h2]
    exact List.mem_map.mpr ⟨(i, s), mem_bads hsget hpget, rfl⟩
  · refine ⟨(rc.map cellOfRaw).map dateCellParse, ?_, hpget⟩
    rw [hl2, ← h1]
    exact lookupCol_assignCol_self t1 col _

/-- C7 witness: the amended theorem applied to a one-cell date column. -/
theorem C7_bad_datetime_witness :
    Issue.cell "bad_datetime" "Date Delivered" 0 "notadate" ∈
      okIs (coerce_types [("Date Delivered", [some "notadate"])]) ∧
    (∃ cells,
      lookupCol "Date Delivered"
        (okT (coerce_types [("Date Delivered", [some "notadate"])])) =
          some cells ∧
      cells.get? 0 = some Value.absent) ∧
    height (okT (coerce_types [("Date Delivered", [some "notadate"])])) =
      height [("Date Delivered", [(some "notadate" : RawCell)])] :=
  C7_bad_datetime [("Date Delivered", [some "notadate"])]
    (okT (coerce_types [("Date Delivered", [some "notadate"])]))
    (okIs (coerce_types [("Date Delivered", [some "notadate"])]))
    "Date Delivered" [some "notadate"] 0 "notadate"
    (by decide) rfl rfl rfl rfl

theorem getD_set_ne : ∀ (h : Heap) (i j : Nat) (t : CoTable), i ≠ j →
    (h.set i t).getD j [] = h.getD j []
  | [], _, _, _, _ => rfl
  | _ :: _, 0, 0, _, hij => absurd rfl hij
  | _ :: _, 0, _ + 1, _, _ => rfl
  | _ :: _, _ + 1, 0, _, _ => rfl
  | _ :: xs, i + 1, j + 1, t, hij =>
      getD_set_ne xs i j t (fun hc => hij (by rw [hc]))

theorem getD_set_self : ∀ (h : Heap) (i : Nat) (t : CoTable), i < h.length →
    (h.set i t).getD i [] = t
  | [], i, _, hi => absurd hi (by simp)
  | _ :: _, 0, _, _ => rfl
  | _ :: xs, i + 1, t, hi =>
      getD_set_self xs i t (Nat.lt_of_succ_lt_succ hi)

theorem set_getD_self : ∀ (h : Heap) (i : Nat), i < h.length →
    h.set i (h.getD i []) = h
  | [], i, hi => absurd hi (by simp)
  | _ :: _, 0, _ => rfl
  | x :: xs, i + 1, hi => by
      show x :: xs.set i (xs.getD i []) = x :: xs
      rw [set_getD_self xs i (Nat.lt_of_succ_lt_succ hi)]

theorem getD_append_left : ∀ (h1 h2 : Heap) (j : Nat), j < h1.length →
    (h1 ++ h2).getD j [] = h1.getD j []
  | [], _, j, hj => absurd hj (by simp)
  | _ :: _, _, 0, _ => rfl
  | _ :: xs, h2, j + 1, hj =>
      getD_append_left xs h2 j (Nat.lt_of_succ_lt_succ hj)

theorem getD_append_length : ∀ (h1 : Heap) (x : CoTable),
    (h1 ++ [x]).getD h1.length [] = x
  | [], _ => rfl
  | _ :: xs, x => getD_append_length xs x

theorem coerceFoldHeap_spec (entries : List (String × Dtype)) :
    ∀ (h : Heap) (r : Nat), r < h.length →
    coerceFoldHeap entries h r =
      match coerceFold entries (h.getD r []) with
      | .error e => .error e
      | .ok p => .ok (h.set r p.1, p.2) := by
  induction entries with
  | nil =>
      intro h r hr
      show Except.ok (h, []) = _
      have h0 : coerceFold [] (h.getD r []) = .ok (h.getD r [], ([] : List Issue)) := rfl
      rw [h0]
      dsimp only
      rw [set_getD_self h r hr]
  | cons e rest ih =>
      intro h r hr
      rw [show coerceFoldHeap (e :: rest) h r =
        (match coerceStep (h.getD r []) e.1 e.2 with
         | .error err => .error err
         | .ok r1 =>
             match coerceFoldHeap rest (h.set r r1.1) r with
             | .error err => .error err
             | .ok r2 => .ok (r2.1, r1.2 ++ r2.2)) from rfl]
      rw [coerceFold_cons]
      cases hstep : coerceStep (h.getD r []) e.1 e.2 with
      | error err => rfl
      | ok r1 =>
          dsimp only
          rw [ih (h.set r r1.1) r (by rw [List.length_set]; exact hr)]
          rw [getD_set_self h r r1.1 hr]
          cases hrest : coerceFold rest r1.1 with
          | error err => rfl
          | ok r2 =>
              dsimp only
              rw [List.set_set]

theorem coerce_types_heap_spec (h : Heap) (r : Nat) (df : RawTable)
    (hdf : h.getD r [] = tableOfRaw df) :
    coerce_types_heap h r =
      match coerce_types df with
      | .error e => .error e
      | .ok p => .ok ((h ++ [tableOfRaw df]).set h.length p.1, h.length, p.2) := by
  unfold coerce_types_heap
  rw [hdf]
  rw [coerceFoldHeap_spec columns (h ++ [tableOfRaw df]) h.length
    (by simp)]
  rw [getD_append_length h (tableOfRaw df)]
  rw [show coerceFold columns (tableOfRaw df) = coerce_types df from rfl]
  cases hc : coerce_types df with
  | error e => rfl
  | ok p => rfl

/-- C10: in the heap model of Python aliasing, `coerce_types` builds its
output on a fresh copy (`df2 = df.copy()`): after it returns, the raw table
passed in — and every other frame on the heap — is unchanged, and the
returned reference is the fresh one, distinct from the input reference. -/
theorem C10_no_mutation (h : Heap) (r : Nat) (df : RawTable) (h' : Heap)
    (r2 : Nat) (is : List Issue) (hr : r < h.length)
    (hdf : h.getD r [] = tableOfRaw df)
    (hc : coerce_types_heap h r = .ok (h', r2, is)) :
    h'.getD r [] = tableOfRaw df ∧
    (∀ j, j < h.length → h'.getD j [] = h.getD j []) ∧
    r2 = h.length ∧ r2 ≠ r := by
  rw [coerce_types_heap_spec h r df hdf] at hc
  split at hc
  · cases hc
  · rename_i p hp
    injection hc with hpair
    injection hpair with h1 h2
    injection h2 with h2a h2b
    have hmain : ∀ j, j < h.length → h'.getD j [] = h.getD j [] := by
      intro j hj
      rw [← h1]
      rw [getD_set_ne _ _ _ _ (Nat.ne_of_lt hj).symm]
      exact getD_append_left h [tableOfRaw df] j hj
    refine ⟨?_, hmain, h2a.symm, ?_⟩
    · rw [hmain r hr, hdf]
    · rw [← h2a]
      exact (Nat.ne_of_lt hr).symm

/-- C10 witness: a one-frame heap holding a one-column raw table. -/
theorem C10_no_mutation_witness :
    (okHeap (coerce_types_heap [tableOfRaw [("Plant", [some "x"])]] 0)).getD 0 []
      = tableOfRaw [("Plant", [some "x"])] ∧
    (∀ j, j < [tableOfRaw [("Plant", [some "x"])]].length →
      (okHeap (coerce_types_heap [tableOfRaw [("Plant", [some "x"])]] 0)).getD j []
        = [tableOfRaw [("Plant", [some "x"])]].getD j []) ∧
    okRef (coerce_types_heap [tableOfRaw [("Plant", [some "x"])]] 0) =
      [tableOfRaw [("Plant", [some "x"])]].length ∧
    okRef (coerce_types_heap [tableOfRaw [("Plant", [some "x"])]] 0) ≠ 0 :=
  C10_no_mutation [tableOfRaw [("Plant", [some "x"])]] 0
    [("Plant", [some "x"])]
    (okHeap (coerce_types_heap [tableOfRaw [("Plant", [some "x"])]] 0))
    (okRef (coerce_types_heap [tableOfRaw [("Plant", [some "x"])]] 0))
    (okHIs (coerce_types_heap [tableOfRaw [("Plant", [some "x"])]] 0))
    (by decide) rfl rfl

theorem height_stripCols (df : RawTable) : height (stripCols df) = height df := by
  cases df with
  | nil => rfl
  | cons p rest => rfl

theorem rect_stripCols {df : RawTable} (hr : Rect df) : Rect (stripCols df) := by
  intro p hp
  rw [height_stripCols]
  rw [stripCols] at hp
  obtain ⟨q, hq, hpq⟩ := List.mem_map.mp hp
  rw [← hpq]
  exact hr q hq

theorem assignCol_ne_nil (t : CoTable) (c : String) (cells : List Value) :
    assignCol t c cells ≠ [] := by
  rw [assignCol]
  by_cases hs : (lookupCol c t).isSome
  · rw [if_pos hs]
    cases t with
    | nil =>
        rw [show lookupCol c ([] : CoTable) = none from rfl] at hs
        simp at hs
    | cons p rest =>
        rw [setCol]
        exact List.cons_ne_nil _ _
  · rw [if_neg hs]
    simp

theorem mem_foldl_union (ts : List CoTable) (acc : List String) (c : String)
    (h : c ∈ acc ∨ ∃ t ∈ ts, c ∈ colNames t) :
    c ∈ List.foldl
      (fun acc t => acc ++ (colNames t).filter (fun c => !acc.contains c))
      acc ts := by
  induction ts generalizing acc with
  | nil =>
      rcases h with hacc | ⟨t, ht, _⟩
      · exact hacc
      · cases ht
  | cons t rest ih =>
      rw [List.foldl_cons]
      apply ih
      rcases h with hacc | ⟨t', ht', hc'⟩
      · exact Or.inl (List.mem_append_left _ hacc)
      · rcases ht' with _ | ⟨_, hmem⟩
        · by_cases hin : c ∈ acc
          · exact Or.inl (List.mem_append_left _ hin)
          · refine Or.inl (List.mem_append_right _ ?_)
            apply List.mem_filter.mpr
            refine ⟨hc', ?_⟩
            rw [Bool.not_eq_eq_eq_not, Bool.not_true, Bool.eq_false_iff]
            intro habs
            exact hin (List.elem_iff.mp habs)
        · exact Or.inr ⟨t', hmem, hc'⟩

theorem unionCols_prefix (ts : List CoTable) (acc : List String) :
    ∃ X, List.foldl
      (fun acc t => acc ++ (colNames t).filter (fun c => !acc.contains c))
      acc ts = acc ++ X := by
  induction ts generalizing acc with
  | nil => exact ⟨[], by simp⟩
  | cons t rest ih =>
      rw [List.foldl_cons]
      obtain ⟨X, hX⟩ := ih (acc ++ (colNames t).filter (fun c => !acc.contains c))
      exact ⟨(colNames t).filter (fun c => !acc.contains c) ++ X,
        by rw [hX, List.append_assoc]⟩

theorem mem_unionCols {ts : List CoTable} {t : CoTable} (ht : t ∈ ts)
    {c : String} (hc : c ∈ colNames t) : c ∈ unionCols ts := by
  rw [unionCols]
  exact mem_foldl_union ts [] c (Or.inr ⟨t, ht, hc⟩)

theorem lookupCol_map_key (l : List String) (g : String → List Value)
    (c : String) :
    lookupCol c (l.map (fun x => (x, g x))) =
      if c ∈ l then some (g c) else none := by
  induction l with
  | nil => simp [lookupCol]
  | cons x xs ih =>
      rw [List.map_cons]
      by_cases hx : x = c
      · rw [lookupCol, if_pos hx, hx]
        rw [if_pos (List.mem_cons_self _ _)]
      · rw [lookupCol, if_neg hx, ih]
        by_cases hxs : c ∈ xs
        · rw [if_pos hxs, if_pos (List.mem_cons_of_mem _ hxs)]
        · rw [if_neg hxs, if_neg ?_]
          intro habs
          cases habs with
          | head => exact hx rfl
          | tail _ hmem => exact hxs hmem

theorem lookupCol_concatTables (ts : List CoTable) (c : String)
    (hc : c ∈ unionCols ts) :
    lookupCol c (concatTables ts) =
      some ((ts.map (fun t =>
        match lookupCol c t with
        | some cells => cells
        | none => List.replicate (height t) Value.absent)).flatten) := by
  rw [concatTables, lookupCol_map_key, if_pos hc]

theorem height_concatTables (t0 : CoTable) (rest : List CoTable)
    (h0 : t0 ≠ []) (hrect : ∀ t ∈ t0 :: rest, Rect t) :
    height (concatTables (t0 :: rest)) = ((t0 :: rest).map height).sum := by
  obtain ⟨q, tl, ht0⟩ : ∃ q tl, t0 = q :: tl := by
    cases t0 with
    | nil => exact absurd rfl h0
    | cons q tl => exact ⟨q, tl, rfl⟩
  have hstep1 : unionCols (t0 :: rest) =
      List.foldl
        (fun acc t => acc ++ (colNames t).filter (fun c => !acc.contains c))
        (colNames t0) rest := by
    rw [unionCols, List.foldl_cons]
    congr 1
    simp
  obtain ⟨X, hX⟩ := unionCols_prefix rest (colNames t0)
  have hu : unionCols (t0 :: rest) = q.1 :: (colNames tl ++ X) := by
    rw [hstep1, hX, ht0]
    rfl
  rw [concatTables, hu, List.map_cons]
  show ((t0 :: rest).map (fun t =>
    match lookupCol q.1 t with
    | some cells => cells
    | none => List.replicate (height t) Value.absent)).flatten.length = _
  rw [List.length_flatten, List.map_map]
  apply congrArg List.sum
  apply List.map_congr_left
  intro t ht
  show (match lookupCol q.1 t with
    | some cells => cells
    | none => List.replicate (height t) Value.absent).length = height t
  cases hq2 : lookupCol q.1 t with
  | some cells => exact hrect t ht (q.1, cells) (lookupCol_mem hq2)
  | none => exact List.length_replicate _ _

theorem runBatch_frames (sources : List Src) :
    ∀ {frames : List CoTable} {errs : List ErrRow},
    (∀ f df, (f, Except.ok df) ∈ sources → Rect df) →
    runBatch sources = .ok (frames, errs) →
    List.Forall₂ (fun (p : Nat × String) (t : CoTable) =>
      height t = p.1 ∧ Rect t ∧ t ≠ [] ∧
      lookupCol "__source_file" t = some (List.replicate p.1 (Value.str p.2)))
      (loadedMeta sources) frames := by
  induction sources with
  | nil =>
      intro frames errs _ h
      injection h with hpair
      injection hpair with h1 h2
      rw [← h1]
      exact List.Forall₂.nil
  | cons s rest ih =>
      intro frames errs hrect h
      obtain ⟨f, res⟩ := s
      rw [runBatch_cons] at h
      dsimp only at h
      cases res with
      | error e =>
          rw [show processSource f (Except.error e) =
            .ok ([], [readErrRow f e]) from rfl] at h
          dsimp only at h
          split at h
          · cases h
          · rename_i r2 hrest
            obtain ⟨fs2, es2⟩ := r2
            injection h with hpair
            injection hpair with h1 h2
            rw [← h1]
            rw [show loadedMeta ((f, Except.error e) :: rest) =
              loadedMeta rest from rfl]
            rw [List.nil_append]
            exact ih (fun f' df' hm => hrect f' df' (List.mem_cons_of_mem _ hm))
              hrest
      | ok df =>
          rw [show processSource f (Except.ok df) =
            (match coerce_types (stripCols df) with
             | .error err => .error err
             | .ok r =>
                 .ok ([assignCol r.1 "__source_file"
                     (List.replicate (height r.1) (.str (basename f)))],
                   r.2.map (issueToErrRow r.1 f) ++ validate_row_level r.1 f))
            from rfl] at h
          split at h
          · cases h
          · rename_i r1 hcc
            obtain ⟨fs1, es1⟩ := r1
            split at hcc
            · cases hcc
            · rename_i rC hcoerce
              obtain ⟨tC, isC⟩ := rC
              injection hcc with hccpair
              injection hccpair with hcc1 hcc2
              split at h
              · cases h
              · rename_i r2 hrest
                obtain ⟨fs2, es2⟩ := r2
                injection h with hpair
                injection hpair with h1 h2
                rw [← h1, ← hcc1]
                rw [show loadedMeta ((f, Except.ok df) :: rest) =
                  (height df, basename f) :: loadedMeta rest from rfl]
                rw [List.singleton_append]
                have hRdf : Rect df :=
                  hrect f df (List.mem_cons_self _ _)
                have hhC : height tC = height df := by
                  rw [coerce_types_height hcoerce, height_stripCols]
                have hRC : Rect tC :=
                  coerce_types_rect (rect_stripCols hRdf) hcoerce
                apply List.Forall₂.cons
                · dsimp only
                  refine ⟨?_, ?_, assignCol_ne_nil _ _ _, ?_⟩
                  · rw [height_assignCol_of_len tC (List.length_replicate _ _)]
                    exact hhC
                  · exact rect_assignCol tC _ _ hRC (List.length_replicate _ _)
                  · rw [lookupCol_assignCol_self, hhC]
                · exact ih
                    (fun f' df' hm => hrect f' df' (List.mem_cons_of_mem _ hm))
                    hrest

theorem frames_heights {ps : List (Nat × String)} {frames : List CoTable}
    (h : List.Forall₂ (fun (p : Nat × String) (t : CoTable) =>
      height t = p.1 ∧ Rect t ∧ t ≠ [] ∧
      lookupCol "__source_file" t = some (List.replicate p.1 (Value.str p.2)))
      ps frames) :
    frames.map height = ps.map Prod.fst ∧
    (frames.map (fun t =>
      match lookupCol "__source_file" t with
      | some cells => cells
      | none => List.replicate (height t) Value.absent)) =
      ps.map (fun p => List.replicate p.1 (Value.str p.2)) ∧
    (∀ t ∈ frames, Rect t) ∧ (∀ t ∈ frames, t ≠ []) := by
  induction h with
  | nil =>
      refine ⟨rfl, rfl, ?_, ?_⟩ <;> intro t ht <;> cases ht
  | cons hp hrest ihr =>
      obtain ⟨hh, hR, hne, hlk⟩ := hp
      refine ⟨?_, ?_, ?_, ?_⟩
      · rw [List.map_cons, List.map_cons, ihr.1, hh]
      · rw [List.map_cons, List.map_cons, ihr.2.1]
        congr 1
        rw [hlk]
      · intro t ht
        cases ht with
        | head => exact hR
        | tail _ hm => exact ihr.2.2.1 t hm
      · intro t ht
        cases ht with
        | head => exact hne
        | tail _ hm => exact ihr.2.2.2 t hm

/-- C4: when the run completes, the Master Dataset's row count is the sum of
the row counts of the successfully-read sources, and its provenance column
is the in-order concatenation of one constant block per source — each
source's rows form one contiguous block in processing order, so no source's
rows are reordered or interleaved with another's. -/
theorem C4_row_count_and_order (sources : List Src) (m : CoTable)
    (l : List ErrRow)
    (hrect : ∀ f df, (f, Except.ok df) ∈ sources → Rect df)
    (h : ingest sources = .ok (m, l)) :
    height m = (loadedRowCounts sources).sum ∧
    (loadedMeta sources ≠ [] →
      lookupCol "__source_file" m =
        some ((loadedMeta sources).map
          (fun p => List.replicate p.1 (Value.str p.2))).flatten) := by
  unfold ingest at h
  split at h
  · cases h
  · rename_i r hrb
    obtain ⟨frames, errs⟩ := r
    injection h with hpair
    injection hpair with h1 h2
    have hF := runBatch_frames sources hrect hrb
    cases hmeta : loadedMeta sources with
    | nil =>
        rw [hmeta] at hF
        cases hF
        rw [← h1]
        constructor
        · rw [show loadedRowCounts sources = (loadedMeta sources).map Prod.fst
            from rfl, hmeta]
          rfl
        · intro habs
          exact absurd rfl habs
    | cons p ps =>
        rw [hmeta] at hF
        cases hF with
        | cons hp0 hFrest =>
            rename_i t0 frest
            have hmm := frames_heights (List.Forall₂.cons hp0 hFrest)
            obtain ⟨hh0, hR0, hne0, hlk0⟩ := hp0
            have hrectF : ∀ t ∈ t0 :: frest, Rect t := hmm.2.2.1
            rw [← h1]
            rw [show buildMaster (t0 :: frest) = concatTables (t0 :: frest)
              from rfl]
            constructor
            · rw [height_concatTables t0 frest hne0 hrectF]
              rw [hmm.1]
              rw [show loadedRowCounts sources =
                (loadedMeta sources).map Prod.fst from rfl, hmeta]
            · intro _
              have hmemu : "__source_file" ∈ unionCols (t0 :: frest) := by
                apply mem_unionCols (List.mem_cons_self _ _)
                apply (lookupCol_isSome_iff _ _).mp
                rw [hlk0]
                rfl
              rw [lookupCol_concatTables _ _ hmemu]
              rw [hmm.2.1]

/-- C4 witness: a two-source batch with one readable and one unreadable
source. -/
theorem C4_row_count_and_order_witness :
    height (okM (ingest batch2)) = (loadedRowCounts batch2).sum ∧
    (loadedMeta batch2 ≠ [] →
      lookupCol "__source_file" (okM (ingest batch2)) =
        some ((loadedMeta batch2).map
          (fun p => List.replicate p.1 (Value.str p.2))).flatten) :=
  C4_row_count_and_order batch2 (okM (ingest batch2)) (okL (ingest batch2))
    (by
      intro f df hm
      cases hm with
      | head => exact (by unfold Rect; decide)
      | tail _ h2 => cases h2 with
        | tail _ h3 => cases h3)
    rfl
